import Mathlib

/-!
Verification of the off-topic-names bot module (`bot/cogs/off_topic_names.py`)
against its natural-language specification.

Python strings are modelled as `List Char` (a Python `str` is a sequence of
Unicode code points).  Fallible code is modelled with `Except`.  The remote
API and the event loop are modelled by passing their observable results
(fetch outcomes, wall-clock readings, event sequences) explicitly.
-/

/- `Rat.mul`/`Rat.inv`/`Rat.add`/`Rat.sub` are `@[irreducible]` in Batteries,
which blocks `decide`'s evaluation of concrete ℚ arithmetic; restore the
default reducibility for this file (the kernel is unaffected either way). -/
attribute [local semireducible] Rat.mul Rat.inv Rat.add Rat.sub

namespace OffTopicBot

/-! ### The name validator (`OffTopicName.convert`) -/

/-- ASCII apostrophe, written by code point to keep the source text plain. -/
def apos : Char := Char.ofNat 39

/-- ASCII backtick, written by code point to keep the source text plain. -/
def btick : Char := Char.ofNat 96

/-- U+2019 RIGHT SINGLE QUOTATION MARK, the image of both `apos` and `btick`
in the substitution table. -/
def rsquo : Char := Char.ofNat 0x2019

/-- The source's `allowed_characters` string:
uppercase Latin letters followed by the punctuation marks
exclamation mark, question mark, apostrophe, backtick and hyphen. -/
def allowedCharacters : List Char :=
  "ABCDEFGHIJKLMNOPQRSTUVWXYZ!?".toList ++ [apos, btick, '-']

/-- The replacement string of the source's `str.maketrans` call:
U+1D5A0..U+1D5B9 (mathematical sans-serif capitals), U+01C3, U+FF1F,
U+2019, U+2019 and ASCII hyphen, in that order. -/
def replacementCharacters : List Char :=
  "𝖠𝖡𝖢𝖣𝖤𝖥𝖦𝖧𝖨𝖩𝖪𝖫𝖬𝖭𝖮𝖯𝖰𝖱𝖲𝖳𝖴𝖵𝖶𝖷𝖸𝖹".toList
    ++ [Char.ofNat 0x1C3, Char.ofNat 0xFF1F, rsquo, rsquo, '-']

/-- The substitution table built by `str.maketrans(allowed_characters, ...)`:
an association of each allowed character with its replacement. -/
def transPairs : List (Char × Char) :=
  allowedCharacters.zip replacementCharacters

/-- One character step of `str.translate`: characters in the table are
replaced, all others pass through unchanged. -/
def tableChar (c : Char) : Char :=
  match transPairs.find? (fun p => p.1 = c) with
  | some p => p.2
  | none => c

/-- `argument.translate(table)`: the table applied character by character. -/
def translate (s : List Char) : List Char := s.map tableChar

/-- Python's `str.isalnum` restricted to the characters this development
evaluates it on.  It is exact on ASCII (letters and digits) and on the
non-ASCII characters that occur in this module's substitution table:
U+1D5A0..U+1D5B9 and U+01C3 are Unicode letters (alphanumeric in Python),
while U+FF1F and U+2019 are punctuation (not alphanumeric).  The rest of
Python's Unicode alphanumeric table is out of scope; every theorem below
evaluates this predicate only on the characters just listed. -/
def pyIsAlnum (c : Char) : Bool :=
  c.isAlpha || c.isDigit
    || (0x1D5A0 ≤ c.val && c.val ≤ 0x1D5B9) || c.val == 0x1C3

/-- The two `BadArgument` failures `OffTopicName.convert` can raise. -/
inductive ConvertError where
  | invalidLength
  | invalidCharacters
  deriving DecidableEq, Repr

/-- `OffTopicName.convert`: reject when the length is outside `[2, 96]`,
then reject when some character is neither alphanumeric nor in
`allowed_characters`, otherwise translate through the substitution table. -/
def convert (argument : List Char) : Except ConvertError (List Char) :=
  if ¬ (2 ≤ argument.length ∧ argument.length ≤ 96) then
    .error .invalidLength
  else if ¬ (argument.all fun c => pyIsAlnum c || allowedCharacters.contains c) then
    .error .invalidCharacters
  else
    .ok (translate argument)

/-- The validator's acceptance condition, as a proposition. -/
def validName (s : List Char) : Prop :=
  2 ≤ s.length ∧ s.length ≤ 96 ∧
    ∀ c ∈ s, pyIsAlnum c = true ∨ c ∈ allowedCharacters

instance (s : List Char) : Decidable (validName s) := by
  unfold validName; infer_instance

/-- Modelled from the spec: the "trimmed length" the spec's length rule
speaks of — the length after stripping leading and trailing whitespace
(Python `str.strip()`); the source itself never trims. -/
def strippedLength (s : List Char) : Nat :=
  (((s.dropWhile Char.isWhitespace).reverse.dropWhile Char.isWhitespace).reverse).length

/-- Identification of backtick with apostrophe: the only two allowed
characters sharing an image under the substitution table. -/
def canon (c : Char) : Char := if c = btick then apos else c

instance {ε α : Type} [DecidableEq ε] [DecidableEq α] : DecidableEq (Except ε α)
  | .error e, .error f =>
    if h : e = f then .isTrue (by rw [h]) else .isFalse (by intro hh; cases hh; exact h rfl)
  | .error _, .ok _ => .isFalse (by intro h; cases h)
  | .ok _, .error _ => .isFalse (by intro h; cases h)
  | .ok a, .ok b =>
    if h : a = b then .isTrue (by rw [h]) else .isFalse (by intro hh; cases hh; exact h rfl)

theorem convert_eq_ok_of_valid (s : List Char) (h : validName s) :
    convert s = .ok (translate s) := by
  obtain ⟨h1, h2, h3⟩ := h
  unfold convert
  rw [if_neg, if_neg]
  · simp only [not_not, List.all_eq_true]
    intro c hc
    simpa using h3 c hc
  · simp only [not_not]
    exact ⟨h1, h2⟩

/-- The characters the substitution table actually changes: the allowed
alphabet minus the hyphen, which the table maps to itself. -/
def mappedCharacters : List Char :=
  "ABCDEFGHIJKLMNOPQRSTUVWXYZ!?".toList ++ [apos, btick]

theorem allowed_eq_mapped_append :
    allowedCharacters = mappedCharacters ++ ['-'] := by
  simp [allowedCharacters, mappedCharacters]

theorem tableChar_not_mem {c : Char} (h : c ∉ allowedCharacters) : tableChar c = c := by
  unfold tableChar
  have hnone : transPairs.find? (fun p => p.1 = c) = none := by
    rw [List.find?_eq_none]
    rintro ⟨p1, p2⟩ hp
    have h1 : p1 ∈ allowedCharacters := (List.of_mem_zip hp).1
    simp only [decide_eq_true_eq]
    rintro rfl
    exact h h1
  rw [hnone]

theorem map_fix_iff (f : Char → Char) (s : List Char) :
    s.map f = s ↔ ∀ c ∈ s, f c = c := by
  induction s with
  | nil => simp
  | cons c s ih => simp [ih]

theorem tableChar_fix_iff (c : Char) : tableChar c = c ↔ c ∉ mappedCharacters := by
  by_cases hm : c ∈ allowedCharacters
  · exact (by decide : ∀ c ∈ allowedCharacters, (tableChar c = c ↔ c ∉ mappedCharacters)) c hm
  · have hfix : tableChar c = c := tableChar_not_mem hm
    have hnm : c ∉ mappedCharacters := fun hc =>
      hm (allowed_eq_mapped_append ▸ List.mem_append_left _ hc)
    simp [hfix, hnm]

theorem tableChar_eq_iff_canon :
    ∀ c ∈ allowedCharacters, ∀ d ∈ allowedCharacters,
      (tableChar c = tableChar d ↔ canon c = canon d) := by decide

/-- C1 — counterexample.  The substitution table is NOT injective on the
allowed alphabet: the apostrophe and the backtick are distinct allowed
characters with the same image U+2019, and the two distinct valid inputs
`A'` and `` A` `` transliterate to the same output. -/
theorem c1_counterexample :
    tableChar apos = tableChar btick ∧ apos ≠ btick ∧
    validName ['A', apos] ∧ validName ['A', btick] ∧
    (['A', apos] : List Char) ≠ ['A', btick] ∧
    convert ['A', apos] = convert ['A', btick] := by decide

/-- C1 — amended.  The substitution table is injective on the allowed
alphabet except that apostrophe and backtick share the image U+2019:
for strings over the allowed alphabet, transliterated outputs coincide
exactly when the inputs agree after identifying backtick with apostrophe. -/
theorem c1_amended (s t : List Char)
    (hs : ∀ c ∈ s, c ∈ allowedCharacters)
    (ht : ∀ c ∈ t, c ∈ allowedCharacters) :
    translate s = translate t ↔ s.map canon = t.map canon := by
  induction s generalizing t with
  | nil =>
    cases t with
    | nil => simp
    | cons d t => simp [translate]
  | cons c s ih =>
    cases t with
    | nil => simp [translate]
    | cons d t =>
      have hc := hs c (by simp)
      have hd := ht d (by simp)
      have hchar := tableChar_eq_iff_canon c hc d hd
      have hrest := ih t (fun x hx => hs x (by simp [hx])) (fun x hx => ht x (by simp [hx]))
      simp only [translate, List.map_cons, List.cons.injEq] at hrest ⊢
      exact and_congr hchar hrest

/-- C1 — witness for the amended theorem, instantiated at the colliding pair. -/
theorem c1_amended_witness :
    translate ['A', apos] = translate ['A', btick] ↔
      (['A', apos] : List Char).map canon = (['A', btick] : List Char).map canon :=
  c1_amended ['A', apos] ['A', btick] (by decide) (by decide)

/-- C7 — counterexample.  The code checks the RAW length, not the trimmed
length: on input `"A "` (raw length 2, trimmed length 1 ∉ [2,96]) the
validator does not fail with the length error — it fails with the
character error instead. -/
theorem c7_counterexample :
    strippedLength ['A', ' '] = 1 ∧
    convert ['A', ' '] ≠ .error .invalidLength ∧
    convert ['A', ' '] = .error .invalidCharacters := by decide

/-- C7 — amended.  The validator fails with the length error exactly when
the raw (untrimmed) length of the argument is outside [2, 96]; a failing
validation returns only the error and no transliterated output (the
result type carries either the error or the output, never both). -/
theorem c7_amended (s : List Char) :
    convert s = .error .invalidLength ↔ (s.length < 2 ∨ 96 < s.length) := by
  unfold convert
  by_cases h : 2 ≤ s.length ∧ s.length ≤ 96
  · rw [if_neg (by simpa using h)]
    split
    · simp only [Except.error.injEq]
      constructor
      · intro hc; cases hc
      · intro hc; omega
    · simp only [reduceCtorEq, false_iff]
      omega
  · rw [if_pos (by simpa using h)]
    simp only [Except.error.injEq, true_iff]
    omega

/-- C8 — counterexample.  Valid inputs CAN be typed verbatim back: the
hyphen is an allowed punctuation mark that the table maps to itself, and
lowercase letters pass through unchanged, so `--` and `ab` are stored
exactly as typed. -/
theorem c8_counterexample :
    validName ['-', '-'] ∧ convert ['-', '-'] = .ok ['-', '-'] ∧
    validName ['a', 'b'] ∧ convert ['a', 'b'] = .ok ['a', 'b'] := by decide

/-- C8 — amended.  Every uppercase ASCII letter and each of the punctuation
marks `!` `?` `'` backtick is mapped to a distinct-from-itself non-ASCII
look-alike, while the hyphen and characters outside the substitution
alphabet (lowercase letters, digits, ...) pass through unchanged; hence
the stored value equals the typed input exactly when the input contains
no character of the substituted set. -/
theorem c8_amended :
    (∀ c ∈ mappedCharacters, tableChar c ≠ c ∧ 127 < (tableChar c).val) ∧
    (∀ s : List Char, translate s = s ↔ ∀ c ∈ s, c ∉ mappedCharacters) := by
  refine ⟨by decide, fun s => ?_⟩
  rw [translate, map_fix_iff]
  exact ⟨fun h c hc => (tableChar_fix_iff c).mp (h c hc),
    fun h c hc => (tableChar_fix_iff c).mpr (h c hc)⟩

/-- C8 — witness for the amended theorem. -/
theorem c8_amended_witness :
    (tableChar 'A' ≠ 'A' ∧ 127 < (tableChar 'A').val) ∧
    (translate ['a', 'b'] = ['a', 'b'] ↔ ∀ c ∈ (['a', 'b'] : List Char), c ∉ mappedCharacters) :=
  ⟨c8_amended.1 'A' (by decide), c8_amended.2 ['a', 'b']⟩

/-! ### The updater loop (`update_names`) -/

def microsPerDay : Nat := 86400000000

/-- The `.seconds` attribute of a non-negative Python `timedelta` of
`micros` microseconds: the timedelta is normalized to
`(days, seconds, microseconds)` and `.seconds` is only the seconds
component — the days component is dropped. -/
def timedeltaSeconds (micros : Nat) : Nat := micros % microsPerDay / 1000000

/-- The sleep computation at the top of `update_names`' loop body, for a
wall clock reading `m` microseconds after today's UTC midnight
(`0 ≤ m < microsPerDay`; the two `utcnow()` calls are modelled at the same
instant): `today_at_midnight` is the clock floored to the day, and the
code sleeps `(next_midnight - utcnow()).seconds + 1`. -/
def sleepSeconds (m : Nat) : Nat := timedeltaSeconds (microsPerDay - m) + 1

/-- Modelled from the spec: the whole seconds remaining until the next
(strictly future) UTC midnight from an instant `m` microseconds into the
day — at an exact midnight instant the next midnight is a full day away. -/
def wholeSecondsUntilNextMidnight (m : Nat) : Nat :=
  if m = 0 then 86400 else (microsPerDay - m) / 1000000

/-- C4 — counterexample.  At an exact-midnight instant the delta to the
next midnight is one full day, whose `timedelta.seconds` component is 0,
so the code sleeps 1 second — not the 86401 seconds the claimed formula
(whole seconds remaining until the next midnight, plus one) yields. -/
theorem c4_counterexample :
    sleepSeconds 0 = 1 ∧ wholeSecondsUntilNextMidnight 0 + 1 = 86401 ∧
    sleepSeconds 0 ≠ wholeSecondsUntilNextMidnight 0 + 1 := by decide

/-- C4 — amended.  At every instant strictly after a midnight the computed
sleep equals the whole seconds remaining until the next UTC midnight plus
one second of margin; at an exact-midnight instant the loop instead
sleeps 1 second, since `timedelta.seconds` of a full day is 0. -/
theorem c4_amended (m : Nat) (h0 : 0 < m) (hday : m < microsPerDay) :
    sleepSeconds m = wholeSecondsUntilNextMidnight m + 1 := by
  have hlt : microsPerDay - m < microsPerDay := by
    unfold microsPerDay at hday ⊢; omega
  unfold sleepSeconds timedeltaSeconds wholeSecondsUntilNextMidnight
  rw [if_neg (by omega), Nat.mod_eq_of_lt hlt]

/-- C4 — witness: at 23:59:59.000000 UTC the loop sleeps exactly 2 seconds. -/
theorem c4_amended_witness :
    (0 < 86399000000 ∧ 86399000000 < microsPerDay) ∧
    sleepSeconds 86399000000 = wholeSecondsUntilNextMidnight 86399000000 + 1 ∧
    sleepSeconds 86399000000 = 2 :=
  ⟨⟨by decide, by decide⟩, c4_amended 86399000000 (by decide) (by decide), by decide⟩

/-- `f'ot{slot}-{name}'`, the new display name for channel slot 0, 1 or 2. -/
def otPrefixed (slot : Nat) (name : List Char) : List Char :=
  'o' :: 't' :: Char.ofNat (48 + slot) :: '-' :: name

/-- Observable outcome of one completed loop iteration: the new channel
names in slot order, and the status code logged by `log.error` if the
fetch failed. -/
structure CycleOutcome where
  renames : List (List Char)
  loggedErrorCode : Option Nat
  deriving DecidableEq, Repr

/-- The body of one `update_names` iteration after the sleep, consuming
the result of the iteration's single remote fetch of 3 random names.
A `ResponseCodeError` is caught: the code is logged and the iteration
ends with no rename (`continue` back to the sleep).  A successful
response is unpacked into exactly three names and the three channels are
renamed; a successful response of any other length makes the unpacking
raise a `ValueError`, which no handler catches — modelled as `.error`,
terminating the loop. -/
def updateCycle (fetch : Except Nat (List (List Char))) : Except String CycleOutcome :=
  match fetch with
  | .error code => .ok ⟨[], some code⟩
  | .ok [n0, n1, n2] =>
      .ok ⟨[otPrefixed 0 n0, otPrefixed 1 n1, otPrefixed 2 n2], none⟩
  | .ok _ => .error "ValueError: unpacking"

/-- C2 — confirmed.  When the fetch fails with a status-code error, the
code is logged, no channel rename occurs, and the iteration completes
normally (no uncaught exception), returning the loop to its sleep; the
iteration consumes exactly one fetch, so there is no retry. -/
theorem c2_failure_isolation (code : Nat) :
    updateCycle (.error code) = .ok ⟨[], some code⟩ := rfl

/-- C10 — confirmed.  A successful fetch whose list does not have exactly
3 elements makes the three-way unpacking raise an exception that the
loop's `except ResponseCodeError` clause does not catch, so the update
step is not total over successful responses and the loop can terminate. -/
theorem c10_malformed_success (names : List (List Char)) (h : names.length ≠ 3) :
    updateCycle (.ok names) = .error "ValueError: unpacking" := by
  rcases names with _ | ⟨a, _ | ⟨b, _ | ⟨c, _ | ⟨d, rest⟩⟩⟩⟩
  · rfl
  · rfl
  · rfl
  · exact absurd rfl h
  · rfl

/-- C10 — witness: the empty successful response kills the loop. -/
theorem c10_witness :
    (([] : List (List Char)).length ≠ 3) ∧
    updateCycle (.ok []) = .error "ValueError: unpacking" :=
  ⟨by decide, c10_malformed_success [] (by decide)⟩

/-! ### The updater task handle (`__init__` / `on_ready` / `cog_unload`) -/

inductive CogEvent where
  | ready
  | unload
  deriving DecidableEq, Repr

/-- Task-handle state of the cog: the `updater_task` attribute, a counter
supplying fresh task ids, and the ids of tasks created and not cancelled
(the tasks that exist). -/
structure CogTasks where
  updaterTask : Option Nat
  nextId : Nat
  live : List Nat
  deriving DecidableEq, Repr

/-- `OffTopicNames.__init__`: `self.updater_task = None`, no task exists. -/
def initCog : CogTasks := ⟨none, 0, []⟩

/-- `on_ready`: start the updating loop only if it hasn't already started
(`if self.updater_task is None`). -/
def onReadyStep (s : CogTasks) : CogTasks :=
  match s.updaterTask with
  | some _ => s
  | none => ⟨some s.nextId, s.nextId + 1, s.nextId :: s.live⟩

/-- `cog_unload`: cancel the running updater task, if any. -/
def cogUnloadStep (s : CogTasks) : CogTasks :=
  match s.updaterTask with
  | some id => { s with live := s.live.erase id }
  | none => s

def stepEvent (s : CogTasks) : CogEvent → CogTasks
  | .ready => onReadyStep s
  | .unload => cogUnloadStep s

/-- The cog state after a sequence of ready/unload events from `__init__`. -/
def runEvents (evs : List CogEvent) : CogTasks := evs.foldl stepEvent initCog

/-- Invariant: either no task exists, or exactly the task held by the
`updater_task` handle exists. -/
def handleInv (s : CogTasks) : Prop :=
  s.live = [] ∨ ∃ id, s.updaterTask = some id ∧ s.live = [id]

theorem handleInv_step {s : CogTasks} (h : handleInv s) (e : CogEvent) :
    handleInv (stepEvent s e) := by
  cases e with
  | ready =>
    show handleInv (onReadyStep s)
    unfold onReadyStep
    cases hu : s.updaterTask with
    | some id => exact h
    | none =>
      rcases h with h | ⟨id, hid, _⟩
      · exact Or.inr ⟨s.nextId, rfl, by simp [h]⟩
      · rw [hu] at hid; cases hid
  | unload =>
    show handleInv (cogUnloadStep s)
    unfold cogUnloadStep
    cases hu : s.updaterTask with
    | none => exact h
    | some id =>
      rcases h with h | ⟨id', hid', hlive⟩
      · exact Or.inl (by simp [h])
      · rw [hu] at hid'; injection hid' with hh; subst hh
        exact Or.inl (by simp [hlive])

theorem handleInv_run (evs : List CogEvent) : handleInv (runEvents evs) := by
  unfold runEvents
  have h0 : handleInv initCog := Or.inl rfl
  generalize initCog = s at h0 ⊢
  induction evs generalizing s with
  | nil => exact h0
  | cons e evs ih => exact ih _ (handleInv_step h0 e)

/-- C6 — confirmed.  At most one updater task exists after any sequence of
ready/unload events; a ready event while a handle exists is a no-op; and
unload cancels exactly the held task. -/
theorem c6_singleton :
    (∀ evs : List CogEvent, (runEvents evs).live.length ≤ 1) ∧
    (∀ s : CogTasks, s.updaterTask ≠ none → onReadyStep s = s) ∧
    (∀ s : CogTasks, ∀ id, s.updaterTask = some id →
      (cogUnloadStep s).live = s.live.erase id) := by
  refine ⟨fun evs => ?_, fun s hs => ?_, fun s id hid => ?_⟩
  · rcases handleInv_run evs with h | ⟨id, _, h⟩ <;> simp [h]
  · unfold onReadyStep
    cases hu : s.updaterTask with
    | none => exact absurd hu hs
    | some id => rfl
  · unfold cogUnloadStep
    rw [hid]

/-- C6 — witness: a duplicate ready event leaves at most one task; a ready
with a handle set is a no-op; unload removes the held task. -/
theorem c6_singleton_witness :
    ((runEvents [.ready, .ready, .unload]).live.length ≤ 1) ∧
    (onReadyStep ⟨some 0, 1, [0]⟩ = ⟨some 0, 1, [0]⟩) ∧
    ((cogUnloadStep ⟨some 0, 1, [0]⟩).live = ([0] : List Nat).erase 0) :=
  ⟨c6_singleton.1 [.ready, .ready, .unload],
   c6_singleton.2.1 ⟨some 0, 1, [0]⟩ (by simp),
   c6_singleton.2.2 ⟨some 0, 1, [0]⟩ 0 rfl⟩

/-! ### The add command (`add_command`) -/

/-- `"-".join(names)`. -/
def dashJoin (names : List (List Char)) : List Char := List.intercalate ['-'] names

/-- Observable outcome of a successful `add` invocation: the names POSTed
to the store and the confirmation message sent back. -/
structure AddOutcome where
  posted : List (List Char)
  reply : List Char
  deriving DecidableEq, Repr

/-- The confirmation message f-string of `add_command`. -/
def okHandReply (name : List Char) : List Char :=
  ":ok_hand: Added `".toList ++ name ++ "` to the names list.".toList

/-- `add_command`: the framework runs the `OffTopicName` converter on each
token before the body executes (a failing token aborts the command); the
body joins the CONVERTED tokens with `-`, POSTs the joined name once, and
sends one confirmation message echoing that same joined name. -/
def addCommand (tokens : List (List Char)) : Except ConvertError AddOutcome := do
  let names ← tokens.mapM convert
  let name := dashJoin names
  return ⟨[name], okHandReply name⟩

theorem mapM_convert_valid (tokens : List (List Char))
    (h : ∀ t ∈ tokens, validName t) :
    tokens.mapM convert = .ok (tokens.map translate) := by
  induction tokens with
  | nil => rfl
  | cons t ts ih =>
    rw [List.mapM_cons, convert_eq_ok_of_valid t (h t (by simp)),
      ih (fun x hx => h x (by simp [hx]))]
    rfl

theorem addCommand_valid (tokens : List (List Char))
    (h : ∀ t ∈ tokens, validName t) :
    addCommand tokens = .ok ⟨[dashJoin (tokens.map translate)],
      okHandReply (dashJoin (tokens.map translate))⟩ := by
  unfold addCommand
  rw [mapM_convert_valid tokens h]
  rfl

/-- C5 — confirmed.  With every token individually valid, each token is
validated and transliterated first and the sanitized tokens are then
concatenated with `-`; exactly one entry — the per-token-transliterated
tokens joined by `-` — is posted to the store. -/
theorem c5_join_after_validation (tokens : List (List Char))
    (h : ∀ t ∈ tokens, validName t) :
    addCommand tokens = .ok ⟨[dashJoin (tokens.map translate)],
      okHandReply (dashJoin (tokens.map translate))⟩ :=
  addCommand_valid tokens h

/-- C5 — witness: `add FOO BAR` posts exactly the entry
`translate(FOO) ++ "-" ++ translate(BAR)`. -/
theorem c5_witness :
    (∀ t ∈ [("FOO").toList, ("BAR").toList], validName t) ∧
    addCommand [("FOO").toList, ("BAR").toList] =
      .ok ⟨[dashJoin ([("FOO").toList, ("BAR").toList].map translate)],
        okHandReply (dashJoin ([("FOO").toList, ("BAR").toList].map translate))⟩ :=
  ⟨by decide, c5_join_after_validation _ (by decide)⟩

/-- The confirmation message of an `add` invocation, if it succeeded. -/
def replyOf : Except ConvertError AddOutcome → Option (List Char)
  | .ok o => some o.reply
  | .error _ => none

/-- C9 — counterexample.  The confirmation does NOT echo the raw joined
name: for `add FOO BAR` the reply embeds the transliterated
`𝖥𝖮𝖮-𝖡𝖠𝖱`, not the user-typed `FOO-BAR`. -/
theorem c9_counterexample :
    replyOf (addCommand [("FOO").toList, ("BAR").toList]) ≠
      some (okHandReply (dashJoin [("FOO").toList, ("BAR").toList])) ∧
    replyOf (addCommand [("FOO").toList, ("BAR").toList]) =
      some (okHandReply (dashJoin ([("FOO").toList, ("BAR").toList].map translate))) := by
  decide

/-- C9 — amended.  The confirmation message echoes the transliterated
joined name — the same value that was posted to the store — rather than
the raw user-typed tokens joined with `-`. -/
theorem c9_amended (tokens : List (List Char))
    (h : ∀ t ∈ tokens, validName t) :
    replyOf (addCommand tokens) =
      some (okHandReply (dashJoin (tokens.map translate))) := by
  rw [addCommand_valid tokens h]
  rfl

/-- C9 — witness for the amended theorem at `add FOO BAR`. -/
theorem c9_amended_witness :
    replyOf (addCommand [("FOO").toList, ("BAR").toList]) =
      some (okHandReply (dashJoin ([("FOO").toList, ("BAR").toList].map translate))) :=
  c9_amended _ (by decide)

/-! ### The search command: `difflib` and `search_command`

`difflib.SequenceMatcher` is embedded with no junk characters: `b` is
always the validated query here (length ≤ 96, far below the 200-character
autojunk threshold), and no explicit junk predicate is passed. -/

/-- Length of the common prefix run of two sequences. -/
def runLen : List Char → List Char → Nat
  | a :: as, b :: bs => if a = b then runLen as bs + 1 else 0
  | _, _ => 0

/-- All matching-block candidates `(i, j, k)`: a start `i` in `a`, a start
`j` in `b`, and `k` the length of the common run from those starts,
enumerated in lexicographic `(i, j)` order. -/
def matchCandidates (a b : List Char) : List (Nat × Nat × Nat) :=
  (List.range (a.length + 1)).flatMap fun i =>
    (List.range (b.length + 1)).map fun j => (i, j, runLen (a.drop i) (b.drop j))

/-- Keep the strictly longer candidate, so the first maximizer in scan
order wins — difflib updates its best block only on `k > bestsize`. -/
def betterMatch (best cand : Nat × Nat × Nat) : Nat × Nat × Nat :=
  if best.2.2 < cand.2.2 then cand else best

/-- `SequenceMatcher.find_longest_match` over the whole sequences, junk-free:
difflib scans endings in lexicographic order and keeps the first strict
improvement, which makes the result the lexicographically first `(i, j)`
start among the blocks of maximal length — exactly the first maximizer of
this scan. -/
def longestMatch (a b : List Char) : Nat × Nat × Nat :=
  (matchCandidates a b).foldl betterMatch (0, 0, 0)

theorem runLen_le_left : ∀ xs ys : List Char, runLen xs ys ≤ xs.length := by
  intro xs
  induction xs with
  | nil => intro ys; cases ys <;> simp [runLen]
  | cons x xs ih =>
    intro ys
    cases ys with
    | nil => simp [runLen]
    | cons y ys =>
      rw [runLen]
      split
      · simpa using ih ys
      · simp

theorem runLen_le_right : ∀ xs ys : List Char, runLen xs ys ≤ ys.length := by
  intro xs
  induction xs with
  | nil => intro ys; cases ys <;> simp [runLen]
  | cons x xs ih =>
    intro ys
    cases ys with
    | nil => simp [runLen]
    | cons y ys =>
      rw [runLen]
      split
      · simpa using ih ys
      · simp

theorem runLen_take_eq : ∀ xs ys : List Char,
    xs.take (runLen xs ys) = ys.take (runLen xs ys) := by
  intro xs
  induction xs with
  | nil => intro ys; cases ys <;> simp [runLen]
  | cons x xs ih =>
    intro ys
    cases ys with
    | nil => simp [runLen]
    | cons y ys =>
      rw [runLen]
      split
      · next h => simp [h, ih ys]
      · simp

/-- The well-formedness a matching block has: it stays inside both
sequences and its two sides are equal character for character. -/
def BlockOk (a b : List Char) (m : Nat × Nat × Nat) : Prop :=
  m.1 + m.2.2 ≤ a.length ∧ m.2.1 + m.2.2 ≤ b.length ∧
    (a.drop m.1).take m.2.2 = (b.drop m.2.1).take m.2.2

theorem matchCandidates_ok (a b : List Char) :
    ∀ m ∈ matchCandidates a b, BlockOk a b m := by
  intro m hm
  unfold matchCandidates at hm
  simp only [List.mem_flatMap, List.mem_map, List.mem_range] at hm
  obtain ⟨i, hi, j, hj, rfl⟩ := hm
  have hia : i ≤ a.length := by omega
  have hjb : j ≤ b.length := by omega
  refine ⟨?_, ?_, ?_⟩
  · show i + runLen (a.drop i) (b.drop j) ≤ a.length
    have := runLen_le_left (a.drop i) (b.drop j)
    simp only [List.length_drop] at this
    omega
  · show j + runLen (a.drop i) (b.drop j) ≤ b.length
    have := runLen_le_right (a.drop i) (b.drop j)
    simp only [List.length_drop] at this
    omega
  · exact runLen_take_eq (a.drop i) (b.drop j)

theorem longestMatch_ok (a b : List Char) : BlockOk a b (longestMatch a b) := by
  unfold longestMatch
  refine List.foldlRecOn (matchCandidates a b) betterMatch (0, 0, 0) ?_ ?_
  · exact ⟨by simp, by simp, by simp⟩
  · intro best hbest cand hcand
    unfold betterMatch
    split
    · exact matchCandidates_ok a b cand hcand
    · exact hbest

/-- Total size of the blocks found by `SequenceMatcher.get_matching_blocks`:
take the longest match, then recurse on the parts left and right of it
(the subsequent merging of adjacent blocks in difflib does not change the
total).  The `fuel` argument only drives structural recursion: each
recursive call strictly decreases `a.length`, so the `a.length` fuel
supplied by `matchingTotal` is never exhausted. -/
def matchingTotalF : Nat → List Char → List Char → Nat
  | 0, _, _ => 0
  | fuel + 1, a, b =>
    let m := longestMatch a b
    if m.2.2 = 0 then 0
    else matchingTotalF fuel (a.take m.1) (b.take m.2.1) + m.2.2 +
      matchingTotalF fuel (a.drop (m.1 + m.2.2)) (b.drop (m.2.1 + m.2.2))

/-- The `M` of `SequenceMatcher.ratio() = 2.0 * M / T`. -/
def matchingTotal (a b : List Char) : Nat := matchingTotalF a.length a b

/-- `SequenceMatcher.quick_ratio`'s matches count: viewing the two
sequences as multisets, the cardinality of their intersection. -/
def quickMatches (a b : List Char) : Nat :=
  ((a : Multiset Char) ∩ (b : Multiset Char)).card

theorem ms_inter_self (s : Multiset Char) : s ∩ s = s :=
  le_antisymm (Multiset.inter_le_left s s) (Multiset.le_inter le_rfl le_rfl)

theorem inter_card_superadd (s₁ s₂ t₁ t₂ : Multiset Char) :
    (s₁ ∩ t₁).card + (s₂ ∩ t₂).card ≤ ((s₁ + s₂) ∩ (t₁ + t₂)).card := by
  rw [← Multiset.card_add]
  apply Multiset.card_le_card
  rw [Multiset.le_iff_count]
  intro c
  simp only [Multiset.count_add, Multiset.count_inter]
  omega

theorem list_decomp (a : List Char) (i k : Nat) :
    a = a.take i ++ ((a.drop i).take k ++ a.drop (i + k)) := by
  rw [← List.drop_drop, List.take_append_drop, List.take_append_drop]

theorem matchingTotalF_le_quickMatches :
    ∀ fuel (a b : List Char), a.length ≤ fuel →
      matchingTotalF fuel a b ≤ quickMatches a b := by
  intro fuel
  induction fuel with
  | zero => intro a b _; exact Nat.zero_le _
  | succ fuel ih =>
    intro a b hlen
    rw [matchingTotalF]
    obtain ⟨hia, hjb, htake⟩ := longestMatch_ok a b
    set m := longestMatch a b
    by_cases hk : m.2.2 = 0
    · simp [hk]
    · simp only [hk, if_false]
      have hk1 : 1 ≤ m.2.2 := Nat.one_le_iff_ne_zero.mpr hk
      have hL : (a.take m.1).length ≤ fuel := by
        simp only [List.length_take]; omega
      have hR : (a.drop (m.1 + m.2.2)).length ≤ fuel := by
        simp only [List.length_drop]; omega
      have hmid : quickMatches ((a.drop m.1).take m.2.2) ((b.drop m.2.1).take m.2.2) =
          m.2.2 := by
        unfold quickMatches
        rw [htake, ms_inter_self, Multiset.coe_card, List.length_take]
        simp only [List.length_drop]
        omega
      have hsplit : quickMatches (a.take m.1) (b.take m.2.1) +
          (quickMatches ((a.drop m.1).take m.2.2) ((b.drop m.2.1).take m.2.2) +
            quickMatches (a.drop (m.1 + m.2.2)) (b.drop (m.2.1 + m.2.2))) ≤
          quickMatches a b := by
        unfold quickMatches
        calc _ ≤ ((↑(a.take m.1) + (↑((a.drop m.1).take m.2.2) + ↑(a.drop (m.1 + m.2.2)))) ∩
              (↑(b.take m.2.1) + (↑((b.drop m.2.1).take m.2.2) + ↑(b.drop (m.2.1 + m.2.2)))) :
                Multiset Char).card := by
              refine le_trans (Nat.add_le_add_left (inter_card_superadd _ _ _ _) _) ?_
              exact inter_card_superadd _ _ _ _
          _ = _ := by
              simp only [Multiset.coe_add]
              rw [← list_decomp, ← list_decomp]
      calc matchingTotalF fuel (a.take m.1) (b.take m.2.1) + m.2.2 +
            matchingTotalF fuel (a.drop (m.1 + m.2.2)) (b.drop (m.2.1 + m.2.2))
          ≤ quickMatches (a.take m.1) (b.take m.2.1) + m.2.2 +
            quickMatches (a.drop (m.1 + m.2.2)) (b.drop (m.2.1 + m.2.2)) := by
            have h1 := ih (a.take m.1) (b.take m.2.1) hL
            have h2 := ih (a.drop (m.1 + m.2.2)) (b.drop (m.2.1 + m.2.2)) hR
            omega
        _ ≤ quickMatches a b := by omega

theorem matchingTotal_le_quickMatches (a b : List Char) :
    matchingTotal a b ≤ quickMatches a b :=
  matchingTotalF_le_quickMatches a.length a b le_rfl

theorem quickMatches_le_min (a b : List Char) :
    quickMatches a b ≤ min a.length b.length := by
  unfold quickMatches
  refine le_min ?_ ?_
  · have := Multiset.card_le_card (Multiset.inter_le_left (a : Multiset Char) b)
    simpa using this
  · have := Multiset.card_le_card (Multiset.inter_le_right (a : Multiset Char) b)
    simpa using this

/-- difflib's `_calculate_ratio(matches, length)`: `2.0 * matches / length`,
or 1.0 when `length` is 0.  Python computes the ratio and the 0.70 cutoff
in double-precision floating point; both are modelled exactly in ℚ.  For
every comparison this development makes the rational values are either
equal or at least `1/(10·t₁·t₂)` apart (t the summed lengths), far above
the rounding error of the doubles involved, so no comparison outcome
differs from Python's. -/
def calcRatio (m len : Nat) : ℚ :=
  if len = 0 then 1 else 2 * (m : ℚ) / (len : ℚ)

/-- `SequenceMatcher.ratio()` with `a` the candidate and `b` the query. -/
def pyRatio (a b : List Char) : ℚ := calcRatio (matchingTotal a b) (a.length + b.length)

/-- `SequenceMatcher.quick_ratio()`. -/
def quickRatio (a b : List Char) : ℚ := calcRatio (quickMatches a b) (a.length + b.length)

/-- `SequenceMatcher.real_quick_ratio()`. -/
def realQuickRatio (a b : List Char) : ℚ :=
  calcRatio (min a.length b.length) (a.length + b.length)

theorem calcRatio_mono {m m' : Nat} (t : Nat) (h : m ≤ m') :
    calcRatio m t ≤ calcRatio m' t := by
  unfold calcRatio
  split
  · exact le_rfl
  · next ht =>
    have ht' : (0 : ℚ) < t := by
      exact_mod_cast Nat.pos_of_ne_zero ht
    have hm : (m : ℚ) ≤ (m' : ℚ) := by exact_mod_cast h
    rw [div_le_div_iff_of_pos_right ht']
    nlinarith

theorem ratio_le_quickRatio (a b : List Char) : pyRatio a b ≤ quickRatio a b :=
  calcRatio_mono _ (matchingTotal_le_quickMatches a b)

theorem quickRatio_le_realQuickRatio (a b : List Char) :
    quickRatio a b ≤ realQuickRatio a b :=
  calcRatio_mono _ (quickMatches_le_min a b)

/-- The conjunction of difflib's three cutoff tests collapses to the final
`ratio() >= cutoff` test, because the two quick ratios are upper bounds
of the true ratio. -/
theorem filter_chain_eq (x word : List Char) (c : ℚ) :
    (decide (c ≤ realQuickRatio x word) && decide (c ≤ quickRatio x word)
      && decide (c ≤ pyRatio x word)) = decide (c ≤ pyRatio x word) := by
  by_cases h : c ≤ pyRatio x word
  · have h1 : c ≤ quickRatio x word := le_trans h (ratio_le_quickRatio x word)
    have h2 : c ≤ realQuickRatio x word := le_trans h1 (quickRatio_le_realQuickRatio x word)
    simp [h, h1, h2]
  · simp [h]

/-- Whether the first list is a leading segment of the second. -/
def startsList : List Char → List Char → Bool
  | [], _ => true
  | _ :: _, [] => false
  | c :: q, d :: s => c == d && startsList q s

/-- Python's substring containment test `q in s`. -/
def pyIn (q : List Char) : List Char → Bool
  | [] => startsList q []
  | d :: s => startsList q (d :: s) || pyIn q s

theorem startsList_iff : ∀ q s : List Char, startsList q s = true ↔ q <+: s := by
  intro q
  induction q with
  | nil => intro s; simp [startsList]
  | cons c q ih =>
    intro s
    cases s with
    | nil => simp [startsList]
    | cons d s => simp [startsList, ih, List.cons_prefix_cons]

theorem pyIn_iff (q : List Char) : ∀ s : List Char, pyIn q s = true ↔ q <:+: s := by
  intro s
  induction s with
  | nil => simp [pyIn, startsList_iff]
  | cons d s ih => simp [pyIn, startsList_iff, ih, List.infix_cons_iff]

theorem pyIn_eq_decide (q s : List Char) : pyIn q s = decide (q <:+: s) := by
  by_cases h : q <:+: s
  · rw [decide_eq_true h]
    exact (pyIn_iff q s).mpr h
  · rw [decide_eq_false h, ← Bool.not_eq_true, pyIn_iff]
    exact h

/-- Python string `<`: lexicographic by code point; a proper leading
segment is smaller. -/
def pyStrLt : List Char → List Char → Bool
  | [], [] => false
  | [], _ :: _ => true
  | _ :: _, [] => false
  | c :: cs, d :: ds =>
    if c.val < d.val then true
    else if d.val < c.val then false
    else pyStrLt cs ds

/-- Python tuple `<` on the `(score, string)` pairs `get_close_matches`
hands to `heapq.nlargest`: by score, ties by string comparison. -/
def scoreLt (p q : ℚ × List Char) : Bool :=
  if p.1 < q.1 then true
  else if q.1 < p.1 then false
  else pyStrLt p.2 q.2

def insertDesc {α : Type} (lt : α → α → Bool) (x : α) : List α → List α
  | [] => [x]
  | y :: ys => if lt y x then x :: y :: ys else y :: insertDesc lt x ys

/-- Stable descending insertion sort: each element goes after every earlier
element it does not strictly exceed — the order of
`sorted(..., reverse=True)`, to which `heapq.nlargest(n, ...)` is
documented to be equivalent (followed by `[:n]`). -/
def sortDesc {α : Type} (lt : α → α → Bool) (l : List α) : List α :=
  l.foldl (fun acc x => insertDesc lt x acc) []

def insertAsc {α : Type} (lt : α → α → Bool) (x : α) : List α → List α
  | [] => [x]
  | y :: ys => if lt x y then x :: y :: ys else y :: insertAsc lt x ys

/-- Stable ascending insertion sort, the order of Python `sorted(...)`. -/
def sortAsc {α : Type} (lt : α → α → Bool) (l : List α) : List α :=
  l.foldl (fun acc x => insertAsc lt x acc) []

/-- `difflib.get_close_matches(word, possibilities, n, cutoff)`: keep the
possibilities passing the three cutoff tests (evaluated left to right),
pair each with its ratio, rank with `heapq.nlargest(n, ...)` under Python
tuple comparison, and return the top `n` strings. -/
def getCloseMatches (word : List Char) (possibilities : List (List Char))
    (n : Nat) (cutoff : ℚ) : List (List Char) :=
  ((sortDesc scoreLt ((possibilities.filter fun x =>
      decide (cutoff ≤ realQuickRatio x word) && decide (cutoff ≤ quickRatio x word)
        && decide (cutoff ≤ pyRatio x word)).map fun x => (pyRatio x word, x))).take n).map
    fun p => p.2

def bulletChar : Char := Char.ofNat 0x2022

/-- The f-string line for one name in the search output. -/
def bulletLine (name : List Char) : List Char := bulletChar :: ' ' :: name

/-- `search_command` body: given the validated query and the full stored
name list fetched from the API, the set of names containing the query as
a substring, unioned with `get_close_matches(query, result, n=10,
cutoff=0.70)`, bullet-prefixed and sorted.  Python's set union followed
by `sorted` is order-insensitive, so it is modelled as
dedup-then-stable-sort, which yields the same sorted line list. -/
def searchLines (query : List Char) (result : List (List Char)) : List (List Char) :=
  sortAsc pyStrLt
    ((((result.filter fun name => pyIn query name) ++
      getCloseMatches query result 10 ((7 : ℚ) / 10)).eraseDups).map bulletLine)

/-- Modelled from the spec's words (as amended): the fuzzy candidate set —
the at most 10 names whose similarity ratio to the query is at least
0.70, ranked by descending similarity with ties broken by descending
lexicographic order of the name. -/
def specFuzzyTop (query : List Char) (names : List (List Char)) : List (List Char) :=
  ((sortDesc scoreLt ((names.filter fun x =>
      decide ((7 : ℚ) / 10 ≤ pyRatio x query)).map fun x => (pyRatio x query, x))).take 10).map
    fun p => p.2

/-- Modelled from the spec's words: all names with the query as a
contiguous substring (no cutoff), unioned with the fuzzy top-10,
deduplicated, bullet-prefixed and sorted lexicographically. -/
def specSearchLines (query : List Char) (names : List (List Char)) : List (List Char) :=
  sortAsc pyStrLt
    ((((names.filter fun n => decide (query <:+: n)) ++
      specFuzzyTop query names).eraseDups).map bulletLine)

/-- The C3 claim's fuzzy ranking exactly as stated: descending similarity
with ties broken by ORIGINAL list order — a stable sort on the score
alone. -/
def scoreOnlyLt (p q : ℚ × List Char) : Bool := decide (p.1 < q.1)

/-- The claim's fuzzy candidate set: at most 10 names with ratio ≥ 0.70,
ranked by descending similarity, ties in original list order. -/
def claimFuzzyTop (query : List Char) (names : List (List Char)) : List (List Char) :=
  ((sortDesc scoreOnlyLt ((names.filter fun x =>
      decide ((7 : ℚ) / 10 ≤ pyRatio x query)).map fun x => (pyRatio x query, x))).take 10).map
    fun p => p.2

/-- The C3 claim's full result as stated (substring matches unioned with
`claimFuzzyTop`, deduplicated, bullet-prefixed, sorted). -/
def claimSearchLines (query : List Char) (names : List (List Char)) : List (List Char) :=
  sortAsc pyStrLt
    ((((names.filter fun n => decide (query <:+: n)) ++
      claimFuzzyTop query names).eraseDups).map bulletLine)

/-- Eleven stored names tying at ratio 0.75 against the query `AAAA`. -/
def tieNames : List (List Char) :=
  ["AAAB".toList, "AAAC".toList, "AAAD".toList, "AAAE".toList, "AAAF".toList,
   "AAAG".toList, "AAAH".toList, "AAAI".toList, "AAAJ".toList, "AAAK".toList,
   "AAAL".toList]

set_option maxRecDepth 40000 in
/-- C3 — counterexample.  With eleven names of equal similarity 0.75 to
the query `AAAA` (and no substring match), the 10-item cap drops the
LEXICOGRAPHICALLY SMALLEST name (`heapq.nlargest` compares the
`(score, name)` tuples, breaking score ties by name, descending), not
the last name in original list order as the claim states: the code's
result set omits `AAAB` while the claimed result set contains it. -/
theorem c3_counterexample :
    searchLines ("AAAA").toList tieNames ≠ claimSearchLines ("AAAA").toList tieNames ∧
    bulletLine ("AAAB").toList ∈ claimSearchLines ("AAAA").toList tieNames ∧
    bulletLine ("AAAB").toList ∉ searchLines ("AAAA").toList tieNames := by decide

/-- C3 — amended.  For every stored-name list and validated query, the
search result lines equal the union of (a) all names having the query as
a contiguous substring, with no cutoff, and (b) the at-most-10 names with
similarity ratio at least 0.70, ranked by descending similarity with ties
broken by descending lexicographic name order; the union is deduplicated
and the bullet-prefixed lines are sorted.  (The two quick-ratio pretests
of difflib are redundant, and Python's `in` is contiguous-substring
containment.)  The length hypotheses record what the `OffTopicName`
converter guarantees for the query; in particular the query is far below
the 200-character autojunk threshold of `SequenceMatcher`. -/
theorem c3_amended (query : List Char) (names : List (List Char))
    (_h2 : 2 ≤ query.length) (_h96 : query.length ≤ 96) :
    searchLines query names = specSearchLines query names := by
  unfold searchLines specSearchLines getCloseMatches specFuzzyTop
  rw [List.filter_congr (fun x _ => pyIn_eq_decide query x),
    List.filter_congr (fun x _ => filter_chain_eq x query ((7 : ℚ) / 10))]

/-- Three stored names and the query of the spec's worked example. -/
def fruitNames : List (List Char) :=
  ["APPLE".toList, "APPLETREE".toList, "BANANA".toList]

set_option maxRecDepth 40000 in
/-- C3 — witness: the spec's worked example.  For stored names
`{APPLE, APPLETREE, BANANA}` and query `APPLE`, the result is the two
bulleted lines for `APPLE` and `APPLETREE`, sorted. -/
theorem c3_amended_witness :
    (2 ≤ ("APPLE").toList.length ∧ ("APPLE").toList.length ≤ 96) ∧
    searchLines ("APPLE").toList fruitNames = specSearchLines ("APPLE").toList fruitNames ∧
    searchLines ("APPLE").toList fruitNames =
      [bulletLine ("APPLE").toList, bulletLine ("APPLETREE").toList] :=
  ⟨⟨by decide, by decide⟩, c3_amended _ _ (by decide) (by decide), by decide⟩

end OffTopicBot
